import Mathlib

/-!
# Media Shield — verification of the text-forensics scoring engine

Shallow embedding of `src/app.py` (class `GeneralAI` and the `INTELLIGENCE`
pattern registry).  Text is modelled as `List Char`; the Python regular
expressions used by the registry are embedded as a small regex AST (`RE`)
together with a backtracking matcher `runRE` whose first result reproduces
Python's leftmost greedy match, and `finditer` reproduces
`re.finditer(pattern, text, re.IGNORECASE)`.  The sentiment collaborator
(`vaderSentiment`) is external to the repository, so its compound score is a
parameter of `scan`.
-/

set_option maxRecDepth 100000

namespace MediaShield

/-- Characters matched by Python's `\s` (ASCII range). -/
def isSpaceChar (c : Char) : Bool :=
  c == ' ' || c == '\t' || c == '\n' || c == '\r' || c == '\x0b' || c == '\x0c'

/-- Characters matched by Python's `\w` (ASCII range), used for `\b`. -/
def isWordChar (c : Char) : Bool := c.isAlphanum || c == '_'

/-- Regex AST covering the constructs used by the `INTELLIGENCE` patterns:
literals (stored lowercased, matching is case-insensitive as in
`re.IGNORECASE`), one-character classes, concatenation, alternation,
greedy `*` / `?`, and the zero-width word boundary `\b`. -/
inductive RE where
  | eps : RE
  | wb : RE
  | lit : Char → RE
  | cls : (Char → Bool) → RE
  | seq : RE → RE → RE
  | alt : RE → RE → RE
  | opt : RE → RE
  | star : RE → RE

/-- Is the character at index `i` a word character? (`false` out of range). -/
def wordAt (s : List Char) (i : ℕ) : Bool :=
  match s.get? i with
  | some c => isWordChar c
  | none => false

/-- Python's `\b`: the word-character status changes at position `pos`. -/
def atWordBoundary (s : List Char) (pos : ℕ) : Bool :=
  (decide (pos ≠ 0) && wordAt s (pos - 1)) != wordAt s pos

/-- Backtracking matcher.  `runRE s fuel r pos` returns the possible end
positions of a match of `r` starting at `pos`, in the priority order of
Python's backtracking engine, so the head of the list is the end position
Python reports.  `fuel` only bounds recursion depth; all lemmas below hold
for every fuel value. -/
def runRE (s : List Char) : ℕ → RE → ℕ → List ℕ
  | 0, _, _ => []
  | Nat.succ fuel, r, pos =>
    match r with
    | RE.eps => [pos]
    | RE.wb => if atWordBoundary s pos then [pos] else []
    | RE.lit c =>
      match s.get? pos with
      | some d => if d.toLower = c then [pos + 1] else []
      | none => []
    | RE.cls p =>
      match s.get? pos with
      | some d => if p d then [pos + 1] else []
      | none => []
    | RE.seq a b => (runRE s fuel a pos).flatMap (fun e => runRE s fuel b e)
    | RE.alt a b => runRE s fuel a pos ++ runRE s fuel b pos
    | RE.opt a => runRE s fuel a pos ++ [pos]
    | RE.star a =>
      ((runRE s fuel a pos).filter (fun e => pos < e)).flatMap
        (fun e => runRE s fuel (RE.star a) e) ++ [pos]

/-- Structural size of a regex, used to pick a sufficient fuel value. -/
def reSize : RE → ℕ
  | RE.eps => 1
  | RE.wb => 1
  | RE.lit _ => 1
  | RE.cls _ => 1
  | RE.seq a b => reSize a + reSize b + 1
  | RE.alt a b => reSize a + reSize b + 1
  | RE.opt a => reSize a + 1
  | RE.star a => reSize a + 1

/-- Generous fuel bound for `runRE` on text `s`. -/
def refuel (r : RE) (s : List Char) : ℕ := (reSize r + 1) * (s.length + 2)

/-- One step of the `re.finditer` scan: report the match starting at the
current position if there is one, then continue searching after it
(Python restarts the search at the end of the previous match). -/
def finditerAux (r : RE) (s : List Char) : ℕ → ℕ → List (ℕ × ℕ)
  | 0, _ => []
  | Nat.succ fuel, pos =>
    if s.length < pos then []
    else
      match runRE s (refuel r s) r pos with
      | e :: _ => (pos, e) :: finditerAux r s fuel (if pos < e then e else pos + 1)
      | [] => if pos = s.length then [] else finditerAux r s fuel (pos + 1)

/-- All matches of `r` in `s`, as (start, stop) offset pairs, embedding
`re.finditer(pattern, text, re.IGNORECASE)`. -/
def finditer (r : RE) (s : List Char) : List (ℕ × ℕ) :=
  finditerAux r s (s.length + 1) 0

/-- Syntactic check that a regex can only match a non-empty span. -/
def consumes : RE → Bool
  | RE.eps => false
  | RE.wb => false
  | RE.lit _ => true
  | RE.cls _ => true
  | RE.seq a b => consumes a || consumes b
  | RE.alt a b => consumes a && consumes b
  | RE.opt _ => false
  | RE.star _ => false

theorem runRE_ge (s : List Char) :
    ∀ fuel r pos e, e ∈ runRE s fuel r pos → pos ≤ e := by
  intro fuel
  induction fuel with
  | zero => intro r pos e he; simp [runRE] at he
  | succ n ih =>
    intro r pos e he
    cases r with
    | eps => simp [runRE] at he; omega
    | wb =>
      simp only [runRE] at he
      split at he <;> simp at he <;> omega
    | lit c =>
      simp only [runRE] at he
      rcases h : s.get? pos with _ | d <;> rw [h] at he
      · simp at he
      · split at he <;> simp at he
        omega
    | cls p =>
      simp only [runRE] at he
      rcases h : s.get? pos with _ | d <;> rw [h] at he
      · simp at he
      · split at he <;> simp at he
        omega
    | seq a b =>
      simp only [runRE, List.mem_flatMap] at he
      obtain ⟨m, hm, he⟩ := he
      exact le_trans (ih a pos m hm) (ih b m e he)
    | alt a b =>
      simp only [runRE, List.mem_append] at he
      rcases he with he | he
      · exact ih a pos e he
      · exact ih b pos e he
    | opt a =>
      simp only [runRE, List.mem_append, List.mem_singleton] at he
      rcases he with he | he
      · exact ih a pos e he
      · omega
    | star a =>
      simp only [runRE, List.mem_append, List.mem_flatMap, List.mem_filter,
        List.mem_singleton] at he
      rcases he with ⟨m, ⟨_, hm⟩, he⟩ | he
      · have h1 : pos < m := by simpa using hm
        have h2 : m ≤ e := ih (RE.star a) m e he
        omega
      · omega

theorem runRE_le (s : List Char) :
    ∀ fuel r pos e, pos ≤ s.length → e ∈ runRE s fuel r pos → e ≤ s.length := by
  intro fuel
  induction fuel with
  | zero => intro r pos e _ he; simp [runRE] at he
  | succ n ih =>
    intro r pos e hpos he
    cases r with
    | eps => simp [runRE] at he; omega
    | wb =>
      simp only [runRE] at he
      split at he <;> simp at he <;> omega
    | lit c =>
      simp only [runRE] at he
      rcases h : s.get? pos with _ | d <;> rw [h] at he
      · simp at he
      · split at he <;> simp at he
        obtain ⟨hlt, -⟩ := List.get?_eq_some.mp h
        omega
    | cls p =>
      simp only [runRE] at he
      rcases h : s.get? pos with _ | d <;> rw [h] at he
      · simp at he
      · split at he <;> simp at he
        obtain ⟨hlt, -⟩ := List.get?_eq_some.mp h
        omega
    | seq a b =>
      simp only [runRE, List.mem_flatMap] at he
      obtain ⟨m, hm, he⟩ := he
      exact ih b m e (ih a pos m hpos hm) he
    | alt a b =>
      simp only [runRE, List.mem_append] at he
      rcases he with he | he
      · exact ih a pos e hpos he
      · exact ih b pos e hpos he
    | opt a =>
      simp only [runRE, List.mem_append, List.mem_singleton] at he
      rcases he with he | he
      · exact ih a pos e hpos he
      · omega
    | star a =>
      simp only [runRE, List.mem_append, List.mem_flatMap, List.mem_filter,
        List.mem_singleton] at he
      rcases he with ⟨m, ⟨hm', _⟩, he⟩ | he
      · exact ih (RE.star a) m e (ih a pos m hpos hm') he
      · omega

theorem runRE_consumes (s : List Char) :
    ∀ fuel r pos e, consumes r = true → e ∈ runRE s fuel r pos → pos < e := by
  intro fuel
  induction fuel with
  | zero => intro r pos e _ he; simp [runRE] at he
  | succ n ih =>
    intro r pos e hc he
    cases r with
    | eps => simp [consumes] at hc
    | wb => simp [consumes] at hc
    | lit c =>
      simp only [runRE] at he
      rcases h : s.get? pos with _ | d <;> rw [h] at he
      · simp at he
      · split at he <;> simp at he
        omega
    | cls p =>
      simp only [runRE] at he
      rcases h : s.get? pos with _ | d <;> rw [h] at he
      · simp at he
      · split at he <;> simp at he
        omega
    | seq a b =>
      simp only [consumes, Bool.or_eq_true] at hc
      simp only [runRE, List.mem_flatMap] at he
      obtain ⟨m, hm, he⟩ := he
      rcases hc with hc | hc
      · exact lt_of_lt_of_le (ih a pos m hc hm) (runRE_ge s n b m e he)
      · exact lt_of_le_of_lt (runRE_ge s n a pos m hm) (ih b m e hc he)
    | alt a b =>
      simp only [consumes, Bool.and_eq_true] at hc
      simp only [runRE, List.mem_append] at he
      rcases he with he | he
      · exact ih a pos e hc.1 he
      · exact ih b pos e hc.2 he
    | opt a => simp [consumes] at hc
    | star a => simp [consumes] at hc

theorem finditerAux_bounds (r : RE) (s : List Char) (hc : consumes r = true) :
    ∀ fuel pos q, q ∈ finditerAux r s fuel pos →
      q.1 < q.2 ∧ q.2 ≤ s.length := by
  intro fuel
  induction fuel with
  | zero => intro pos q hq; simp [finditerAux] at hq
  | succ n ih =>
    intro pos q hq
    simp only [finditerAux] at hq
    split at hq
    · simp at hq
    · rename_i hpos
      have hpos' : pos ≤ s.length := by omega
      split at hq
      · rename_i e rest h
        rcases List.mem_cons.mp hq with hq | hq
        · subst hq
          have he : e ∈ runRE s (refuel r s) r pos := by
            rw [h]; exact List.mem_cons_self e rest
          exact ⟨runRE_consumes s _ r pos e hc he, runRE_le s _ r pos e hpos' he⟩
        · exact ih _ q hq
      · split at hq
        · simp at hq
        · exact ih _ q hq

theorem finditer_bounds (r : RE) (s : List Char) (hc : consumes r = true) :
    ∀ q ∈ finditer r s, q.1 < q.2 ∧ q.2 ≤ s.length := by
  intro q hq
  exact finditerAux_bounds r s hc _ 0 q hq

/-! ## Transcription of the `INTELLIGENCE` pattern registry -/

/-- Concatenation of a list of regexes. -/
def reSeqList : List RE → RE
  | [] => RE.eps
  | [r] => r
  | r :: rs => RE.seq r (reSeqList rs)

/-- Left-to-right alternation `(a|b|...)`, preserving Python's try order. -/
def altList : List RE → RE
  | [] => RE.eps
  | [r] => r
  | r :: rs => RE.alt r (altList rs)

/-- Literal word, letters lowercased (matching is case-insensitive). -/
def strRE (w : String) : RE := reSeqList (w.toList.map (fun c => RE.lit c.toLower))

/-- `\s+` -/
def wsRE : RE := RE.seq (RE.cls isSpaceChar) (RE.star (RE.cls isSpaceChar))

/-- `\d+` -/
def digitsRE : RE := RE.seq (RE.cls Char.isDigit) (RE.star (RE.cls Char.isDigit))

/-- The class `[\d,.]`. -/
def numComma (c : Char) : Bool := c.isDigit || c == ',' || c == '.'

/-- `[\d,.]+` -/
def numRE : RE := RE.seq (RE.cls numComma) (RE.star (RE.cls numComma))

/-- Wrap a regex in `\b ... \b`. -/
def bnd (r : RE) : RE := RE.seq RE.wb (RE.seq r RE.wb)

/-- Words joined by `\s+`. -/
def wordsRE : List String → RE
  | [] => RE.eps
  | [w] => strRE w
  | w :: ws => RE.seq (strRE w) (RE.seq wsRE (wordsRE ws))

/-- `\bw1\s+w2\s+...\b` -/
def phraseRE (ws : List String) : RE := bnd (wordsRE ws)

/-- A word with an optional trailing `s`, e.g. `doctors?`. -/
def optS (w : String) : RE := RE.seq (strRE w) (RE.opt (RE.lit 's'))

/-- The apostrophe character. -/
def apoc : Char := Char.ofNat 39

/-- The literal `can't stop now` (apostrophe spelled via its code point). -/
def cantStopNowRE : RE := RE.seq (strRE "can") (RE.seq (RE.lit apoc) (strRE "t stop now"))

/-- Category group of a registry entry (`data["category"]` in the source). -/
inductive Cat where
  | EMOTION : Cat
  | PRESSURE : Cat
  | LOGIC : Cat
deriving DecidableEq, Repr

/-- One entry of the `INTELLIGENCE` table. -/
structure IntelEntry where
  color : String
  category : Cat
  patterns : List RE

/-- The `INTELLIGENCE` registry from `src/app.py`, in source (insertion)
order, each Python regex transcribed into `RE`. -/
def INTELLIGENCE : List (String × IntelEntry) :=
  [ ("ANGER",
     { color := "#FF4B4B", category := Cat.EMOTION,
       patterns := [strRE "scandal", strRE "eviscerated", strRE "misogynist",
         strRE "racist", strRE "censored", strRE "banned", strRE "cover-up",
         strRE "outrage", strRE "shameful", strRE "hypocrisy", strRE "lies",
         strRE "attack", strRE "destroy", strRE "victim", strRE "furious"] }),
    ("FEAR",
     { color := "#800080", category := Cat.EMOTION,
       patterns := [strRE "toxic", strRE "lethal", strRE "crisis",
         strRE "collapse", strRE "warning", strRE "danger", strRE "risk",
         strRE "poison", strRE "meltdown", strRE "apocalypse", strRE "deadly",
         strRE "threat", strRE "emergency", strRE "fatal"] }),
    ("SCARCITY",
     { color := "#0068C9", category := Cat.PRESSURE,
       patterns := [phraseRE ["act", "now"],
         bnd (reSeqList [strRE "only", wsRE, digitsRE, wsRE,
           RE.alt (strRE "left") (strRE "remaining")]),
         phraseRE ["while", "supplies", "last"],
         phraseRE ["offer", "expires"],
         phraseRE ["time", "is", "running", "out"],
         phraseRE ["last", "chance"],
         phraseRE ["today", "only"],
         phraseRE ["deadline", "approaching"],
         bnd (strRE "hurry")] }),
    ("AUTHORITY",
     { color := "#00C9A7", category := Cat.PRESSURE,
       patterns := [
         bnd (reSeqList [altList [optS "doctor", optS "scientist", optS "expert"],
           wsRE,
           altList [strRE "recommend", strRE "say", strRE "agree", strRE "confirm"]]),
         bnd (reSeqList [strRE "studies", wsRE,
           altList [strRE "show", strRE "prove", strRE "indicate"]]),
         bnd (reSeqList [RE.alt (strRE "leading") (strRE "top"), wsRE,
           RE.alt (strRE "authority") (strRE "expert")]),
         phraseRE ["secret", "formula"],
         phraseRE ["scientifically", "proven"]] }),
    ("SOCIAL_PROOF",
     { color := "#29B5E8", category := Cat.PRESSURE,
       patterns := [
         bnd (reSeqList [strRE "join", wsRE, RE.opt (RE.seq (strRE "over") wsRE),
           numRE, wsRE, RE.alt (strRE "people") (strRE "users")]),
         bnd (reSeqList [RE.alt (strRE "best") (strRE "top"),
           RE.opt (RE.cls (fun c => c == '-' || c == ' ')), strRE "selling"]),
         bnd (reSeqList [strRE "everyone", wsRE, strRE "is", wsRE,
           RE.alt (strRE "buying") (strRE "using")]),
         bnd (reSeqList [RE.alt (strRE "thousands") (strRE "millions"), wsRE,
           strRE "of", wsRE, strRE "satisfied"])] }),
    ("US_VS_THEM",
     { color := "#FF8C00", category := Cat.LOGIC,
       patterns := [strRE "those people", strRE "the radical", strRE "unlike us",
         strRE "they want to", strRE "they hate", strRE "the enemy",
         strRE "anti-American", strRE "foreigners", strRE "outsiders",
         strRE "destroy our values", strRE "threat to our way of life"] }),
    ("SUNK_COST",
     { color := "#8D6E63", category := Cat.LOGIC,
       patterns := [strRE "we have already invested", strRE "too late to turn back",
         strRE "invested too much", cantStopNowRE,
         strRE "finish what we started", strRE "waste of time if we stop",
         strRE "already spent"] }) ]

/-! ## Span matcher and greedy overlap resolution -/

/-- `text[i:j]` on a character list. -/
def sliceC (l : List Char) (i j : ℕ) : List Char := (l.drop i).take (j - i)

/-- One candidate match, mirroring the dict built at `src/app.py:100`
(`end` is a Lean keyword, so the field is named `stop`). -/
structure SpanMatch where
  start : ℕ
  stop : ℕ
  text : List Char
  label : String
  category : Cat
  color : String
deriving DecidableEq, Repr

/-- All candidate matches of a registry against a text, in registry order
(the nested loops at `src/app.py:97-100`). -/
def candidatesFor (intel : List (String × IntelEntry)) (text : List Char) :
    List SpanMatch :=
  intel.flatMap (fun e =>
    e.2.patterns.flatMap (fun p =>
      (finditer p text).map (fun q =>
        { start := q.1, stop := q.2, text := sliceC text q.1 q.2,
          label := e.1, category := e.2.category, color := e.2.color })))

/-- Candidate matches against the `INTELLIGENCE` registry. -/
def findCandidates (text : List Char) : List SpanMatch :=
  candidatesFor INTELLIGENCE text

/-- The sort key of `src/app.py:102`: start offset ascending and, on equal
starts, span length descending (`(x["start"], -(x["end"] - x["start"]))`). -/
def sortKey (a b : SpanMatch) : Prop :=
  a.start < b.start ∨ (a.start = b.start ∧ b.stop - b.start ≤ a.stop - a.start)

instance : DecidableRel sortKey := fun a b => by
  unfold sortKey; infer_instance

instance : IsTotal SpanMatch sortKey :=
  ⟨by intro a b; unfold sortKey; omega⟩

instance : IsTrans SpanMatch sortKey :=
  ⟨by intro a b c; unfold sortKey; omega⟩

/-- The descending-start key of `src/app.py:112`
(`key=lambda x: x["start"], reverse=True`). -/
def descKey (a b : SpanMatch) : Prop := b.start ≤ a.start

instance : DecidableRel descKey := fun a b => by
  unfold descKey; infer_instance

/-- `matches.sort(key=lambda x: (x["start"], -(x["end"] - x["start"])))`;
insertion sort is stable, like Python's sort. -/
def sortMatches (ms : List SpanMatch) : List SpanMatch :=
  List.insertionSort sortKey ms

/-- `final_matches.sort(key=lambda x: x["start"], reverse=True)`. -/
def sortDescMatches (ms : List SpanMatch) : List SpanMatch :=
  List.insertionSort descKey ms

/-- Per-category breakdown (`results["breakdown"]`). -/
structure Breakdown where
  EMOTION : ℕ
  PRESSURE : ℕ
  LOGIC : ℕ
deriving DecidableEq, Repr

/-- `results["breakdown"][m["category"]] += 1` -/
def Breakdown.bump (b : Breakdown) : Cat → Breakdown
  | Cat.EMOTION => { b with EMOTION := b.EMOTION + 1 }
  | Cat.PRESSURE => { b with PRESSURE := b.PRESSURE + 1 }
  | Cat.LOGIC => { b with LOGIC := b.LOGIC + 1 }

/-- Select a breakdown count by category. -/
def Breakdown.get (b : Breakdown) : Cat → ℕ
  | Cat.EMOTION => b.EMOTION
  | Cat.PRESSURE => b.PRESSURE
  | Cat.LOGIC => b.LOGIC

/-- State of the greedy sweep loop at `src/app.py:103-110`. -/
structure SweepState where
  final : List SpanMatch
  last_end : ℕ
  breakdown : Breakdown
  triggers_found : List String

/-- One iteration of the sweep loop: accept the candidate iff its start is
at least `last_end`; on acceptance append it, advance `last_end`, bump the
breakdown and record the trigger label. -/
def scanStep (st : SweepState) (m : SpanMatch) : SweepState :=
  if st.last_end ≤ m.start then
    { final := st.final ++ [m], last_end := m.stop,
      breakdown := st.breakdown.bump m.category,
      triggers_found := st.triggers_found ++ [m.label] }
  else st

/-- The sweep over the sorted candidates of a text. -/
def sweptState (text : List Char) : SweepState :=
  List.foldl scanStep ⟨[], 0, ⟨0, 0, 0⟩, []⟩ (sortMatches (findCandidates text))

/-- The accepted (resolved) matches of the greedy sweep, as a plain
recursion: accept a candidate exactly when its start is at least the end
of the last accepted match. -/
def resolveAux : ℕ → List SpanMatch → List SpanMatch
  | _, [] => []
  | last, m :: ms =>
    if last ≤ m.start then m :: resolveAux m.stop ms else resolveAux last ms

/-- Number of matches of a given category in a list. -/
def countCat (c : Cat) : List SpanMatch → ℕ
  | [] => 0
  | m :: ms => (if m.category = c then 1 else 0) + countCat c ms

/-! ## Evidence renderer (highlighting) -/

/-- The opening half of the badge inserted at `src/app.py:114`. -/
def badgeOpen (m : SpanMatch) : List Char :=
  ("<span style=\"background-color: " ++ m.color ++
   "33; border-bottom: 2px solid " ++ m.color ++
   "; border-radius: 4px; padding: 0 2px; font-weight: bold;\" title=\"" ++
   m.label ++ "\">").toList

/-- The closing half of the badge. -/
def badgeClose : List Char := "</span>".toList

/-- One splice of `src/app.py:115`:
`s[:m["start"]] + badge + s[m["end"]:]`, where the badge wraps the
ORIGINAL text's slice `text[m["start"]:m["end"]]`.  The marker halves are
parameters so that "removing the inserted markers" is expressible as the
same splice with empty markers. -/
def spliceWith (opn : SpanMatch → List Char) (close : List Char)
    (text acc : List Char) (m : SpanMatch) : List Char :=
  acc.take m.start ++ opn m ++ sliceC text m.start m.stop ++ close ++ acc.drop m.stop

/-- The highlighting loop at `src/app.py:113-115`: repeated splicing over
the (descending-sorted) resolved matches. -/
def annotateWith (opn : SpanMatch → List Char) (close : List Char)
    (text : List Char) (ms : List SpanMatch) : List Char :=
  ms.foldl (spliceWith opn close text) text

/-- The actual highlighted text produced by `scan`. -/
def highlight (text : List Char) (ms : List SpanMatch) : List Char :=
  annotateWith badgeOpen badgeClose text ms

/-! ## Verdict and aggregation -/

/-- The safe verdict string of `src/app.py:74`. -/
def safeVerdict : String :=
  "✅ **Safe to Read:** This text appears balanced, neutral, and objective. It relies on facts rather than emotional manipulation."

/-- A single apostrophe as a string. -/
def aposS : String := String.singleton apoc

/-- The EMOTION verdict sentence of `src/app.py:80`. -/
def emotionVerdict : String :=
  "⚠️ **Emotional Manipulation Detected:** This text is trying to bypass your logic by triggering intense feelings like Anger or Fear. "

/-- The PRESSURE verdict sentence of `src/app.py:82`. -/
def pressureVerdict : String :=
  "⚠️ **High Pressure Tactics:** The author is creating artificial urgency or relying on vague " ++
  aposS ++ "experts" ++ aposS ++ " to force you into a quick decision. "

/-- The LOGIC verdict sentence of `src/app.py:84`. -/
def logicVerdict : String :=
  "⚠️ **Logical Fallacies:** This argument is structurally flawed. It uses " ++
  aposS ++ "Us vs. Them" ++ aposS ++ " tribalism or " ++ aposS ++ "Sunk Cost" ++
  aposS ++ " traps instead of valid reasoning. "

/-- The critical suffix of `src/app.py:87`. -/
def criticalSuffix : String :=
  "**Proceed with extreme caution.** The manipulation density is critical."

/-- The skeptical suffix of `src/app.py:89`. -/
def skepticalSuffix : String := "Be skeptical of the framing used here."

/-- The verdict sentence for a category group. -/
def catVerdict : Cat → String
  | Cat.EMOTION => emotionVerdict
  | Cat.PRESSURE => pressureVerdict
  | Cat.LOGIC => logicVerdict

/-- `max(breakdown, key=breakdown.get)` at `src/app.py:76`: Python's `max`
scans the keys in insertion order (EMOTION, PRESSURE, LOGIC) and keeps the
first key whose count is strictly greater than the current best, so ties
go to the earlier-declared group. -/
def highest_cat (b : Breakdown) : Cat :=
  if b.get (if b.PRESSURE > b.EMOTION then Cat.PRESSURE else Cat.EMOTION) < b.LOGIC
  then Cat.LOGIC
  else if b.PRESSURE > b.EMOTION then Cat.PRESSURE else Cat.EMOTION

/-- `GeneralAI.generate_verdict` (`src/app.py:72-91`). -/
def generate_verdict (breakdown : Breakdown) (score : ℕ) : String :=
  if score < 20 then safeVerdict
  else
    let verdict := catVerdict (highest_cat breakdown)
    if 70 < score then verdict ++ criticalSuffix
    else if 40 < score then verdict ++ skepticalSuffix
    else verdict

/-- The sentiment bonus of `src/app.py:119`: `+15` when
`abs(vader['compound']) * 100 > 50`.  The compound score of the external
`vaderSentiment` collaborator is modelled as a rational in `[-1, 1]`. -/
def vaderBonus (compound : ℚ) : ℕ :=
  if |compound| * 100 > 50 then 15 else 0

/-- The scan report (`results` dict of `src/app.py:94`, plus the local
`final_matches` list, which the claims call the ResolvedMatchSet). -/
structure ScanReport where
  score : ℕ
  breakdown : Breakdown
  triggers_found : List String
  highlighted_text : List Char
  verdict : String
  final_matches : List SpanMatch
deriving Repr

/-- `GeneralAI.scan` (`src/app.py:93-123`).  `compound` is the output of
the external sentiment collaborator on this text. -/
def scan (compound : ℚ) (text : List Char) : ScanReport :=
  let st := sweptState text
  let final_desc := sortDescMatches st.final
  let highlighted := highlight text final_desc
  let score0 := st.breakdown.EMOTION * 10 + st.breakdown.PRESSURE * 15 +
    st.breakdown.LOGIC * 20
  let score1 := if |compound| * 100 > 50 then score0 + 15 else score0
  let score := min score1 100
  { score := score, breakdown := st.breakdown,
    triggers_found := st.triggers_found, highlighted_text := highlighted,
    verdict := generate_verdict st.breakdown score, final_matches := st.final }

/-- The pre-clamp score of `src/app.py:117-119`. -/
def rawScore (compound : ℚ) (text : List Char) : ℕ :=
  (sweptState text).breakdown.EMOTION * 10 +
  (sweptState text).breakdown.PRESSURE * 15 +
  (sweptState text).breakdown.LOGIC * 20 + vaderBonus compound

/-- The lexical part of the score (weighted breakdown sum). -/
def lexScore (text : List Char) : ℕ :=
  (sweptState text).breakdown.EMOTION * 10 +
  (sweptState text).breakdown.PRESSURE * 15 +
  (sweptState text).breakdown.LOGIC * 20

/-! ## Properties of the greedy sweep -/

theorem resolveAux_subset :
    ∀ ms last, ∀ x ∈ resolveAux last ms, x ∈ ms := by
  intro ms
  induction ms with
  | nil => intro last x hx; simp [resolveAux] at hx
  | cons m ms ih =>
    intro last x hx
    simp only [resolveAux] at hx
    split at hx
    · rcases List.mem_cons.mp hx with h | h
      · exact h ▸ List.mem_cons_self m ms
      · exact List.mem_cons_of_mem m (ih m.stop x h)
    · exact List.mem_cons_of_mem m (ih last x hx)

theorem resolveAux_start_ge :
    ∀ ms last, (∀ m ∈ ms, m.start ≤ m.stop) →
      ∀ x ∈ resolveAux last ms, last ≤ x.start := by
  intro ms
  induction ms with
  | nil => intro last _ x hx; simp [resolveAux] at hx
  | cons m ms ih =>
    intro last hs x hx
    simp only [resolveAux] at hx
    split at hx
    · rename_i hacc
      rcases List.mem_cons.mp hx with h | h
      · subst h; exact hacc
      · have h1 : m.stop ≤ x.start :=
          ih m.stop (fun a ha => hs a (List.mem_cons_of_mem m ha)) x h
        have h2 : m.start ≤ m.stop := hs m (List.mem_cons_self m ms)
        omega
    · exact ih last (fun a ha => hs a (List.mem_cons_of_mem m ha)) x hx

theorem resolveAux_pairwise :
    ∀ ms last, (∀ m ∈ ms, m.start ≤ m.stop) →
      List.Pairwise (fun a b => a.stop ≤ b.start) (resolveAux last ms) := by
  intro ms
  induction ms with
  | nil => intro last _; simp [resolveAux]
  | cons m ms ih =>
    intro last hs
    have hs' : ∀ a ∈ ms, a.start ≤ a.stop :=
      fun a ha => hs a (List.mem_cons_of_mem m ha)
    simp only [resolveAux]
    split
    · exact List.Pairwise.cons
        (fun b hb => resolveAux_start_ge ms m.stop hs' b hb) (ih m.stop hs')
    · exact ih last hs'

theorem foldl_scanStep_final :
    ∀ ms st, (List.foldl scanStep st ms).final
      = st.final ++ resolveAux st.last_end ms := by
  intro ms
  induction ms with
  | nil => intro st; simp [resolveAux]
  | cons m ms ih =>
    intro st
    simp only [List.foldl_cons, resolveAux, scanStep]
    split
    · rw [ih]; simp
    · rw [ih]

theorem foldl_scanStep_triggers :
    ∀ ms st, (List.foldl scanStep st ms).triggers_found
      = st.triggers_found ++ (resolveAux st.last_end ms).map (fun m => m.label) := by
  intro ms
  induction ms with
  | nil => intro st; simp [resolveAux]
  | cons m ms ih =>
    intro st
    simp only [List.foldl_cons, resolveAux, scanStep]
    split
    · rw [ih]; simp
    · rw [ih]

/-- Folding `Breakdown.bump` over a list. -/
def bumpFold (b : Breakdown) (ms : List SpanMatch) : Breakdown :=
  ms.foldl (fun b m => b.bump m.category) b

theorem foldl_scanStep_breakdown :
    ∀ ms st, (List.foldl scanStep st ms).breakdown
      = bumpFold st.breakdown (resolveAux st.last_end ms) := by
  intro ms
  induction ms with
  | nil => intro st; simp [resolveAux, bumpFold]
  | cons m ms ih =>
    intro st
    simp only [List.foldl_cons, resolveAux, scanStep]
    split
    · rw [ih]; simp [bumpFold]
    · rw [ih]

theorem bumpFold_counts :
    ∀ ms b, bumpFold b ms
      = ⟨b.EMOTION + countCat Cat.EMOTION ms,
         b.PRESSURE + countCat Cat.PRESSURE ms,
         b.LOGIC + countCat Cat.LOGIC ms⟩ := by
  intro ms
  induction ms with
  | nil => intro b; simp [bumpFold, countCat]
  | cons m ms ih =>
    intro b
    have hstep : bumpFold b (m :: ms) = bumpFold (b.bump m.category) ms := rfl
    rw [hstep, ih]
    rcases h : m.category with _ | _ | _ <;>
      simp [Breakdown.bump, countCat, h, Breakdown.mk.injEq] <;> omega

theorem countCat_total :
    ∀ ms : List SpanMatch,
      countCat Cat.EMOTION ms + countCat Cat.PRESSURE ms + countCat Cat.LOGIC ms
        = ms.length := by
  intro ms
  induction ms with
  | nil => simp [countCat]
  | cons m ms ih =>
    cases h : m.category <;> simp [countCat, h] <;> omega

/-- The resolved matches of a text, as scan computes them. -/
theorem sweptState_final (text : List Char) :
    (sweptState text).final = resolveAux 0 (sortMatches (findCandidates text)) := by
  rw [sweptState, foldl_scanStep_final]
  rfl

theorem sweptState_triggers (text : List Char) :
    (sweptState text).triggers_found
      = (resolveAux 0 (sortMatches (findCandidates text))).map (fun m => m.label) := by
  rw [sweptState, foldl_scanStep_triggers]
  rfl

theorem sweptState_breakdown (text : List Char) :
    (sweptState text).breakdown
      = ⟨countCat Cat.EMOTION (resolveAux 0 (sortMatches (findCandidates text))),
         countCat Cat.PRESSURE (resolveAux 0 (sortMatches (findCandidates text))),
         countCat Cat.LOGIC (resolveAux 0 (sortMatches (findCandidates text)))⟩ := by
  rw [sweptState, foldl_scanStep_breakdown, bumpFold_counts]
  simp

/-! ## Candidate bounds and ordering -/

/-- Every pattern of the registry can only match a non-empty span. -/
theorem intel_consumes :
    ∀ pr ∈ INTELLIGENCE, ∀ p ∈ pr.2.patterns, consumes p = true := by decide

theorem findCandidates_bounds (text : List Char) :
    ∀ m ∈ findCandidates text, m.start < m.stop ∧ m.stop ≤ text.length := by
  intro m hm
  simp only [findCandidates, candidatesFor, List.mem_flatMap, List.mem_map] at hm
  obtain ⟨e, he, p, hp, q, hq, rfl⟩ := hm
  have hc := intel_consumes e he p hp
  simpa using finditer_bounds p text hc q hq

theorem mem_sortMatches {a : SpanMatch} {ms : List SpanMatch} :
    a ∈ sortMatches ms ↔ a ∈ ms :=
  (List.perm_insertionSort sortKey ms).mem_iff

theorem sortMatches_bounds (text : List Char) :
    ∀ m ∈ sortMatches (findCandidates text),
      m.start < m.stop ∧ m.stop ≤ text.length :=
  fun m hm => findCandidates_bounds text m (mem_sortMatches.mp hm)

/-- The resolved match set of a text. -/
def resolvedMatches (text : List Char) : List SpanMatch :=
  resolveAux 0 (sortMatches (findCandidates text))

theorem resolvedMatches_bounds (text : List Char) :
    ∀ m ∈ resolvedMatches text, m.start < m.stop ∧ m.stop ≤ text.length :=
  fun m hm => sortMatches_bounds text m
    (resolveAux_subset (sortMatches (findCandidates text)) 0 m hm)

theorem resolvedMatches_pairwise (text : List Char) :
    List.Pairwise (fun a b => a.stop ≤ b.start) (resolvedMatches text) :=
  resolveAux_pairwise (sortMatches (findCandidates text)) 0
    (fun m hm => le_of_lt (sortMatches_bounds text m hm).1)

theorem resolvedMatches_strict (text : List Char) :
    List.Pairwise (fun a b => a.start < b.start) (resolvedMatches text) :=
  List.Pairwise.imp_of_mem
    (fun {a b} ha _ h =>
      lt_of_lt_of_le (resolvedMatches_bounds text a ha).1 h)
    (resolvedMatches_pairwise text)

theorem orderedInsert_all_not (a : SpanMatch) :
    ∀ l, (∀ b ∈ l, ¬ descKey a b) →
      List.orderedInsert descKey a l = l ++ [a] := by
  intro l
  induction l with
  | nil => intro _; rfl
  | cons b l ih =>
    intro h
    simp only [List.orderedInsert]
    rw [if_neg (h b (List.mem_cons_self b l)),
      ih (fun x hx => h x (List.mem_cons_of_mem b hx))]
    simp

/-- On a list with strictly increasing starts, the descending stable sort
of `src/app.py:112` is exactly list reversal. -/
theorem sortDesc_eq_reverse :
    ∀ l, List.Pairwise (fun a b => a.start < b.start) l →
      sortDescMatches l = l.reverse := by
  intro l
  induction l with
  | nil => intro _; rfl
  | cons a l ih =>
    intro h
    have h1 := List.pairwise_cons.mp h
    show List.orderedInsert descKey a (List.insertionSort descKey l) = _
    have hl : List.insertionSort descKey l = l.reverse := ih h1.2
    rw [hl, orderedInsert_all_not a l.reverse ?_]
    · simp
    · intro b hb
      have hab : a.start < b.start := h1.1 b (List.mem_reverse.mp hb)
      unfold descKey
      omega

/-! ## Round trip of the evidence renderer -/

theorem slice_append_drop (l : List Char) (i j : ℕ) (h : i ≤ j) :
    sliceC l i j ++ l.drop j = l.drop i := by
  unfold sliceC
  have hd : l.drop j = (l.drop i).drop (j - i) := by
    rw [List.drop_drop]
    congr 1
    omega
  rw [hd, List.take_append_drop]

theorem slice_split (l : List Char) (i j k : ℕ) (hij : i ≤ j) (hjk : j ≤ k) :
    sliceC l i j ++ sliceC l j k = sliceC l i k := by
  unfold sliceC
  have h1 : k - i = (j - i) + (k - j) := by omega
  rw [h1, List.take_add]
  congr 2
  rw [List.drop_drop]
  congr 1
  omega

/-- Canonical left-to-right interleaving of literal runs and marked spans:
the structured form of the highlighted text. -/
def renderWith (opn : SpanMatch → List Char) (close : List Char)
    (text : List Char) : ℕ → List SpanMatch → List Char
  | pos, [] => text.drop pos
  | pos, m :: ms =>
    sliceC text pos m.start ++ opn m ++ sliceC text m.start m.stop ++ close ++
      renderWith opn close text m.stop ms

theorem renderWith_split (opn : SpanMatch → List Char) (close : List Char)
    (text : List Char) :
    ∀ ms pos k, pos ≤ k → (∀ m ∈ ms, k ≤ m.start) →
      renderWith opn close text pos ms
        = sliceC text pos k ++ renderWith opn close text k ms := by
  intro ms
  cases ms with
  | nil =>
    intro pos k h1 _
    show text.drop pos = sliceC text pos k ++ text.drop k
    exact (slice_append_drop text pos k h1).symm
  | cons m ms =>
    intro pos k h1 h2
    have hk : k ≤ m.start := h2 m (List.mem_cons_self m ms)
    simp only [renderWith]
    rw [← slice_split text pos k m.start h1 hk]
    simp [List.append_assoc]

theorem annotate_foldr_eq_render (opn : SpanMatch → List Char)
    (close : List Char) (text : List Char) :
    ∀ ms, List.Pairwise (fun a b => a.stop ≤ b.start) ms →
      (∀ m ∈ ms, m.start ≤ m.stop ∧ m.stop ≤ text.length) →
      ms.foldr (fun m acc => spliceWith opn close text acc m) text
        = renderWith opn close text 0 ms := by
  intro ms
  induction ms with
  | nil =>
    intro _ _
    show text = text.drop 0
    simp
  | cons m ms ih =>
    intro hp hb
    have hp1 := List.pairwise_cons.mp hp
    have hmb := hb m (List.mem_cons_self m ms)
    have hbs : ∀ a ∈ ms, a.start ≤ a.stop ∧ a.stop ≤ text.length :=
      fun a ha => hb a (List.mem_cons_of_mem m ha)
    simp only [List.foldr_cons]
    rw [ih hp1.2 hbs,
      renderWith_split opn close text ms 0 m.stop (Nat.zero_le _) hp1.1]
    have h0 : sliceC text 0 m.stop = text.take m.stop := by simp [sliceC]
    rw [h0]
    have hlen : (text.take m.stop).length = m.stop := by
      rw [List.length_take]
      omega
    have htake : ∀ tt rr : List Char, tt.length = m.stop →
        (tt ++ rr).take m.start = tt.take m.start := by
      intro tt rr h
      exact List.take_append_of_le_length (by omega)
    have hdrop : ∀ tt rr : List Char, tt.length = m.stop →
        (tt ++ rr).drop m.stop = rr := by
      intro tt rr h
      rw [← h]
      exact List.drop_left tt rr
    unfold spliceWith
    rw [htake _ _ hlen, hdrop _ _ hlen, List.take_take]
    have hmin : min m.start m.stop = m.start := by omega
    rw [hmin]
    simp only [renderWith]
    rw [show sliceC text 0 m.start = text.take m.start from by simp [sliceC]]

theorem renderWith_empty (text : List Char) :
    ∀ ms pos, (∀ m ∈ ms, pos ≤ m.start ∧ m.start ≤ m.stop) →
      List.Pairwise (fun a b => a.stop ≤ b.start) ms →
      renderWith (fun _ => []) [] text pos ms = text.drop pos := by
  intro ms
  induction ms with
  | nil => intro pos _ _; rfl
  | cons m ms ih =>
    intro pos h hp
    have hm := h m (List.mem_cons_self m ms)
    have hp1 := List.pairwise_cons.mp hp
    have hrec : ∀ a ∈ ms, m.stop ≤ a.start ∧ a.start ≤ a.stop :=
      fun a ha => ⟨hp1.1 a ha, (h a (List.mem_cons_of_mem m ha)).2⟩
    rw [show renderWith (fun _ => []) [] text pos (m :: ms)
        = sliceC text pos m.start ++
          (sliceC text m.start m.stop ++ renderWith (fun _ => []) [] text m.stop ms)
      from by simp [renderWith]]
    rw [ih m.stop hrec hp1.2, ← List.append_assoc,
      slice_split text pos m.start m.stop hm.1 hm.2,
      slice_append_drop text pos m.stop (le_trans hm.1 hm.2)]

theorem renderWith_contains (opn : SpanMatch → List Char) (close : List Char)
    (text : List Char) :
    ∀ ms pos m, m ∈ ms →
      ∃ u v, renderWith opn close text pos ms
        = u ++ (opn m ++ sliceC text m.start m.stop ++ close) ++ v := by
  intro ms
  induction ms with
  | nil => intro pos m hm; simp at hm
  | cons a ms ih =>
    intro pos m hm
    rcases List.mem_cons.mp hm with h | h
    · subst h
      exact ⟨sliceC text pos m.start, renderWith opn close text m.stop ms,
        by simp [renderWith, List.append_assoc]⟩
    · obtain ⟨u, v, huv⟩ := ih a.stop m h
      refine ⟨sliceC text pos a.start ++ opn a ++ sliceC text a.start a.stop ++
        close ++ u, v, ?_⟩
      simp [renderWith, huv, List.append_assoc]

theorem annotateWith_resolved (opn : SpanMatch → List Char) (close : List Char)
    (text : List Char) :
    annotateWith opn close text (sortDescMatches (resolvedMatches text))
      = renderWith opn close text 0 (resolvedMatches text) := by
  rw [sortDesc_eq_reverse _ (resolvedMatches_strict text)]
  show (List.foldl (spliceWith opn close text) text (resolvedMatches text).reverse) = _
  rw [List.foldl_reverse]
  exact annotate_foldr_eq_render opn close text _ (resolvedMatches_pairwise text)
    (fun m hm => ⟨le_of_lt (resolvedMatches_bounds text m hm).1,
      (resolvedMatches_bounds text m hm).2⟩)

/-! ## Equations for the fields of a scan report -/

theorem scan_final_matches (compound : ℚ) (text : List Char) :
    (scan compound text).final_matches = resolvedMatches text := by
  show (sweptState text).final = _
  rw [sweptState_final]
  rfl

theorem scan_triggers (compound : ℚ) (text : List Char) :
    (scan compound text).triggers_found
      = (resolvedMatches text).map (fun m => m.label) := by
  show (sweptState text).triggers_found = _
  rw [sweptState_triggers]
  rfl

theorem scan_breakdown (compound : ℚ) (text : List Char) :
    (scan compound text).breakdown
      = ⟨countCat Cat.EMOTION (resolvedMatches text),
         countCat Cat.PRESSURE (resolvedMatches text),
         countCat Cat.LOGIC (resolvedMatches text)⟩ := by
  show (sweptState text).breakdown = _
  rw [sweptState_breakdown]
  rfl

theorem scan_highlighted (compound : ℚ) (text : List Char) :
    (scan compound text).highlighted_text
      = annotateWith badgeOpen badgeClose text
          (sortDescMatches (resolvedMatches text)) := by
  show highlight text (sortDescMatches (sweptState text).final) = _
  rw [sweptState_final]
  rfl

theorem scan_score_eq (compound : ℚ) (text : List Char) :
    (scan compound text).score = min (rawScore compound text) 100 := by
  simp only [scan, rawScore, vaderBonus]
  split_ifs <;> simp

theorem rawScore_counts (compound : ℚ) (text : List Char) :
    rawScore compound text
      = countCat Cat.EMOTION (resolvedMatches text) * 10
        + countCat Cat.PRESSURE (resolvedMatches text) * 15
        + countCat Cat.LOGIC (resolvedMatches text) * 20
        + vaderBonus compound := by
  rw [rawScore, sweptState_breakdown]
  rfl

/-! ## The claims -/

/-- **C1.** For every input text (and every sentiment-collaborator output),
the overall score returned by `scan` is an integer between 0 and 100
inclusive (it is a `ℕ`, so `0 ≤ score` holds by type): it equals the
pre-clamp sum saturated at 100, so values above 100 are truncated by
`min _ 100`, never wrapped or rescaled. -/
theorem scan_score_in_range (compound : ℚ) (text : List Char) :
    (scan compound text).score ≤ 100
    ∧ (scan compound text).score = min (rawScore compound text) 100
    ∧ (rawScore compound text ≤ 100 →
        (scan compound text).score = rawScore compound text)
    ∧ (100 < rawScore compound text → (scan compound text).score = 100) := by
  refine ⟨?_, scan_score_eq compound text, ?_, ?_⟩
  · rw [scan_score_eq]
    exact min_le_right _ _
  · intro h
    rw [scan_score_eq]
    exact min_eq_left h
  · intro h
    rw [scan_score_eq]
    exact min_eq_right (le_of_lt h)

/-- Witness for C1 at a concrete input: on the empty text with a neutral
sentiment score the pre-clamp sum is at most 100, and the returned score
equals it. -/
theorem scan_score_in_range_witness :
    rawScore 0 [] ≤ 100 ∧ (scan 0 []).score = rawScore 0 [] := by
  have hv : vaderBonus 0 = 0 := by norm_num [vaderBonus]
  have hb : (sweptState []).breakdown = ⟨0, 0, 0⟩ := rfl
  have hr : rawScore 0 [] = 0 := by
    rw [rawScore, hb, hv]
    rfl
  exact ⟨by omega, (scan_score_in_range 0 []).2.2.1 (by omega)⟩

/-- **C2.** For every input text, the resolved match set produced by `scan`
is non-overlapping: it is produced in ascending-start order and any earlier
match ends at or before the start of any later one; moreover the resolved
set is exactly the greedy sweep over the sorted candidates, whose step
accepts a candidate precisely when its start is at least the end of the
last accepted match. -/
theorem scan_nonoverlap (compound : ℚ) (text : List Char) :
    List.Pairwise (fun a b => a.stop ≤ b.start) (scan compound text).final_matches
    ∧ (scan compound text).final_matches
        = resolveAux 0 (sortMatches (findCandidates text))
    ∧ ∀ (last : ℕ) (m : SpanMatch) (ms : List SpanMatch),
        resolveAux last (m :: ms)
          = if last ≤ m.start then m :: resolveAux m.stop ms
            else resolveAux last ms := by
  refine ⟨?_, ?_, fun _ _ _ => rfl⟩
  · rw [scan_final_matches]
    exact resolvedMatches_pairwise text
  · rw [scan_final_matches]
    rfl

/-- **C3.** For every input text, the pre-clamp score equals the sum over
category groups of the resolved hit count times its weight (EMOTION 10,
PRESSURE 15, LOGIC 20) plus the triggered sentiment bonus, and the
returned score is the minimum of that sum and 100.  Hit counts count only
accepted matches of the overlap resolution, never raw candidates. -/
theorem scan_score_formula (compound : ℚ) (text : List Char) :
    (scan compound text).score
      = min (countCat Cat.EMOTION (resolvedMatches text) * 10
          + countCat Cat.PRESSURE (resolvedMatches text) * 15
          + countCat Cat.LOGIC (resolvedMatches text) * 20
          + vaderBonus compound) 100
    ∧ (scan compound text).breakdown
        = ⟨countCat Cat.EMOTION (resolvedMatches text),
           countCat Cat.PRESSURE (resolvedMatches text),
           countCat Cat.LOGIC (resolvedMatches text)⟩
    ∧ resolvedMatches text = resolveAux 0 (sortMatches (findCandidates text)) := by
  refine ⟨?_, scan_breakdown compound text, rfl⟩
  rw [scan_score_eq, rawScore_counts]

/-- The C4 example's pattern set: both `"act"` and `"act now"` in the same
category. -/
def miniIntel : List (String × IntelEntry) :=
  [("SCARCITY", { color := "#0068C9", category := Cat.PRESSURE,
                  patterns := [strRE "act", strRE "act now"] })]

/-- The C4 example's input text. -/
def actNowText : List Char := "Act now".toList

/-- The full-span match the C4 example must resolve to. -/
def actNowMatch : SpanMatch :=
  ⟨0, 7, "Act now".toList, "SCARCITY", Cat.PRESSURE, "#0068C9"⟩

/-- **C4.** Candidate matches are ordered by start ascending and, for
equal starts, by span length descending (`sortKey`), so the longest
candidate starting at a position is considered first; and on the text
`"Act now"` with a pattern set containing both `"act"` and `"act now"` in
the same category, the resolved match is the full span `"Act now"`,
never the shorter `"act"`. -/
theorem candidates_sorted (text : List Char) :
    List.Pairwise sortKey (sortMatches (findCandidates text))
    ∧ resolveAux 0 (sortMatches (candidatesFor miniIntel actNowText))
        = [actNowMatch]
    ∧ actNowMatch.text = "Act now".toList ∧ actNowMatch.stop - actNowMatch.start = 7 := by
  refine ⟨?_, by decide, rfl, rfl⟩
  exact List.sorted_insertionSort sortKey (findCandidates text)

/-- Declaration index of a category group (EMOTION first). -/
def catIdx : Cat → ℕ
  | Cat.EMOTION => 0
  | Cat.PRESSURE => 1
  | Cat.LOGIC => 2

/-- Counterexample to **C5** as stated: a score of exactly 20 does NOT
yield the safe verdict — the code's guard is `score < 20`, not
`score <= 20`.  The text `"lies attack"` reaches score 20 (two EMOTION
hits) and its verdict is not the safe one; likewise `generate_verdict`
itself at score 20. -/
theorem verdict_at_20_not_safe :
    (scan 0 ("lies attack".toList)).score = 20
    ∧ (scan 0 ("lies attack".toList)).verdict ≠ safeVerdict
    ∧ generate_verdict ⟨2, 0, 0⟩ 20 ≠ safeVerdict := by
  have h : ¬ (|(0 : ℚ)| * 100 > 50) := by norm_num
  refine ⟨?_, ?_, by decide⟩
  · simp only [scan]
    rw [if_neg h]
    decide
  · simp only [scan]
    rw [if_neg h]
    decide

/-- **C5 (amended).** The verdict is selected by score band — a score
BELOW 20 yields the safe verdict, a score above 40 (and at most 70) adds
the skeptical warning, a score above 70 adds the critical warning —
refined by the dominant breakdown category (the group with the highest
hit count, ties broken in favor of the first-declared group), which
determines the manipulation-mode sentence. -/
theorem generate_verdict_spec (b : Breakdown) (score : ℕ) :
    (score < 20 → generate_verdict b score = safeVerdict)
    ∧ (70 < score →
        generate_verdict b score = catVerdict (highest_cat b) ++ criticalSuffix)
    ∧ (20 ≤ score → 40 < score → score ≤ 70 →
        generate_verdict b score = catVerdict (highest_cat b) ++ skepticalSuffix)
    ∧ (20 ≤ score → score ≤ 40 →
        generate_verdict b score = catVerdict (highest_cat b))
    ∧ b.get (highest_cat b) = max (max b.EMOTION b.PRESSURE) b.LOGIC
    ∧ (∀ c : Cat, b.get c = b.get (highest_cat b) →
        catIdx (highest_cat b) ≤ catIdx c) := by
  refine ⟨?_, ?_, ?_, ?_, ?_, ?_⟩
  · intro h
    simp only [generate_verdict]
    rw [if_pos h]
  · intro h
    simp only [generate_verdict]
    rw [if_neg (by omega), if_pos h]
  · intro h1 h2 h3
    simp only [generate_verdict]
    rw [if_neg (by omega), if_neg (by omega), if_pos h2]
  · intro h1 h2
    simp only [generate_verdict]
    rw [if_neg (by omega), if_neg (by omega), if_neg (by omega)]
  · unfold highest_cat
    split_ifs <;> simp_all [Breakdown.get] <;> omega
  · intro c heq
    revert heq
    unfold highest_cat
    cases c <;> split_ifs <;> intro heq <;>
      simp_all [Breakdown.get, catIdx] <;> omega

/-- Witness for the amended C5 at a concrete input: score 20 with an
EMOTION-dominated breakdown yields the emotional-manipulation sentence
with no suffix. -/
theorem generate_verdict_spec_witness :
    generate_verdict ⟨2, 0, 0⟩ 20 = emotionVerdict := by
  have h := (generate_verdict_spec ⟨2, 0, 0⟩ 20).2.2.2.1 (by omega) (by omega)
  rw [h]
  rfl

/-- **C6.** Evidence round trip: re-running the highlighting splices with
empty markers (i.e. removing every inserted marker) reconstructs exactly
the original input text; the highlighted text is exactly those splices
with the badge markers; and each accepted match's original substring
appears inside its marker in the highlighted text. -/
theorem scan_roundtrip (compound : ℚ) (text : List Char) :
    annotateWith (fun _ => []) [] text
        (sortDescMatches (scan compound text).final_matches) = text
    ∧ (scan compound text).highlighted_text
        = annotateWith badgeOpen badgeClose text
            (sortDescMatches (scan compound text).final_matches)
    ∧ ∀ m ∈ (scan compound text).final_matches,
        ∃ u v, (scan compound text).highlighted_text
          = u ++ (badgeOpen m ++ sliceC text m.start m.stop ++ badgeClose) ++ v := by
  rw [scan_final_matches, scan_highlighted]
  refine ⟨?_, rfl, ?_⟩
  · rw [annotateWith_resolved,
      renderWith_empty text (resolvedMatches text) 0
        (fun m hm => ⟨Nat.zero_le _, le_of_lt (resolvedMatches_bounds text m hm).1⟩)
        (resolvedMatches_pairwise text)]
    simp
  · intro m hm
    rw [annotateWith_resolved]
    exact renderWith_contains badgeOpen badgeClose text (resolvedMatches text) 0 m hm

/-- The single resolved match of the text `"lies"`. -/
def liesMatch : SpanMatch := ⟨0, 4, "lies".toList, "ANGER", Cat.EMOTION, "#FF4B4B"⟩

/-- Witness for C6 at a concrete input: in the scan of `"lies"`, the
matched substring appears inside its badge in the highlighted text. -/
theorem scan_roundtrip_witness :
    ∃ u v, (scan 0 ("lies".toList)).highlighted_text
      = u ++ (badgeOpen liesMatch ++ sliceC ("lies".toList) 0 4 ++ badgeClose) ++ v := by
  have hm : liesMatch ∈ (scan 0 ("lies".toList)).final_matches := by
    rw [scan_final_matches]
    decide
  exact (scan_roundtrip 0 ("lies".toList)).2.2 liesMatch hm

/-- **C7.** The empty input yields, without error, an empty resolved
match set, an all-zero breakdown, no triggers, unchanged (empty)
highlighted text, and — whenever the sentiment collaborator does not
trigger its bonus (in particular for the neutral compound 0) — a zero
score. -/
theorem scan_empty_input (compound : ℚ) :
    (scan compound []).final_matches = []
    ∧ (scan compound []).breakdown = ⟨0, 0, 0⟩
    ∧ (scan compound []).triggers_found = []
    ∧ (scan compound []).highlighted_text = []
    ∧ (|compound| * 100 ≤ 50 → (scan compound []).score = 0) := by
  refine ⟨rfl, rfl, rfl, rfl, ?_⟩
  intro h
  simp only [scan]
  rw [if_neg (not_lt.mpr h)]
  decide

/-- Witness for C7: with the neutral sentiment score the empty text
scores 0. -/
theorem scan_empty_input_witness : (scan 0 []).score = 0 :=
  (scan_empty_input 0).2.2.2.2 (by norm_num)

/-- Counterexample to **C8** as stated: the claimed fixed threshold is 60,
but the code (`src/app.py:119`) uses 50.  With compound 0.55 the intensity
`abs(compound) * 100 = 55` does not exceed 60, yet `scan` adds the
15-point bonus (score 15 on otherwise empty text). -/
theorem vader_threshold_counterexample :
    (scan (11/20 : ℚ) []).score = 15 ∧ ¬ (|(11/20 : ℚ)| * 100 > 60) := by
  constructor
  · have h : (|(11/20 : ℚ)| * 100 > 50) := by norm_num [abs_of_pos]
    simp only [scan]
    rw [if_pos h]
    decide
  · rw [abs_of_pos (by norm_num : (0 : ℚ) < 11/20)]
    norm_num

/-- **C8 (amended).** The polarity-intensity signal contributes exactly
when `abs(compound) * 100` exceeds the fixed threshold of FIFTY, in which
case it adds the fixed 15-point bonus to the pre-clamp score; otherwise
it contributes nothing. -/
theorem scan_vader_bonus (compound : ℚ) (text : List Char) :
    vaderBonus compound = (if |compound| * 100 > 50 then 15 else 0)
    ∧ (scan compound text).score = min (lexScore text + vaderBonus compound) 100
    ∧ (|compound| * 100 ≤ 50 →
        (scan compound text).score = min (lexScore text) 100) := by
  refine ⟨rfl, ?_, ?_⟩
  · rw [scan_score_eq]
    rfl
  · intro h
    rw [scan_score_eq]
    have hv : vaderBonus compound = 0 := by
      unfold vaderBonus
      rw [if_neg (not_lt.mpr h)]
    have h2 : rawScore compound text = lexScore text := by
      unfold rawScore lexScore
      rw [hv]
      omega
    rw [h2]

/-- Witness for the amended C8: a neutral compound adds no bonus. -/
theorem scan_vader_bonus_witness :
    (scan 0 []).score = min (lexScore []) 100 :=
  (scan_vader_bonus 0 []).2.2 (by norm_num)

/-- Modelled from the spec: the sentence-level scanner variants of the
repository are not under `src/` (only `src/app.py` is present), so the
document-level score is modelled from §4.5 of the spec: with fewer than 2
sentences it equals the single sentence's risk (0 for no sentences),
otherwise `min((toxicSentenceCount / totalSentenceCount) * 250, 100)`,
a sentence being toxic when its risk exceeds 40. -/
def documentScore (risks : List ℚ) : ℚ :=
  if risks.length < 2 then risks.headD 0
  else min ((((risks.filter (fun r => decide ((40 : ℚ) < r))).length : ℚ)
      / (risks.length : ℚ)) * 250) 100

/-- **C9.** With fewer than 2 sentences the document score is the single
sentence's own risk; otherwise it is `min((toxic/total) * 250, 100)`
counting sentences with risk above 40; in particular 10 sentences with
exactly 4 above risk 40 yield document score 100. -/
theorem documentScore_density (risks : List ℚ) :
    (risks.length < 2 → documentScore risks = risks.headD 0)
    ∧ (∀ r : ℚ, risks = [r] → documentScore risks = r)
    ∧ (2 ≤ risks.length → documentScore risks
        = min ((((risks.filter (fun r => decide ((40 : ℚ) < r))).length : ℚ)
            / (risks.length : ℚ)) * 250) 100)
    ∧ documentScore [50, 50, 50, 50, 10, 10, 10, 10, 10, 10] = 100 := by
  refine ⟨?_, ?_, ?_, ?_⟩
  · intro h
    rw [documentScore, if_pos h]
  · intro r h
    subst h
    rfl
  · intro h
    rw [documentScore, if_neg (by omega)]
  · rw [documentScore]
    norm_num [List.filter]

/-- Witness for C9 at concrete inputs: a single sentence keeps its own
risk, and 4 toxic sentences out of 10 saturate the document score. -/
theorem documentScore_density_witness :
    documentScore [77] = 77
    ∧ documentScore [50, 50, 50, 50, 10, 10, 10, 10, 10, 10] = 100 :=
  ⟨(documentScore_density [77]).2.1 77 rfl,
   (documentScore_density [50, 50, 50, 50, 10, 10, 10, 10, 10, 10]).2.2.2⟩

/-- **C10.** For every input text, the number of trigger labels equals
the sum of all breakdown counts, and both equal the number of accepted
matches; the trigger list is exactly the accepted matches' labels in
acceptance order. -/
theorem scan_trigger_count (compound : ℚ) (text : List Char) :
    (scan compound text).triggers_found.length
        = (scan compound text).breakdown.EMOTION
          + (scan compound text).breakdown.PRESSURE
          + (scan compound text).breakdown.LOGIC
    ∧ (scan compound text).triggers_found.length
        = (scan compound text).final_matches.length
    ∧ (scan compound text).triggers_found
        = (scan compound text).final_matches.map (fun m => m.label) := by
  have h3 : (scan compound text).triggers_found
      = (scan compound text).final_matches.map (fun m => m.label) := by
    rw [scan_triggers, scan_final_matches]
  have h2 : (scan compound text).triggers_found.length
      = (scan compound text).final_matches.length := by
    rw [h3, List.length_map]
  refine ⟨?_, h2, h3⟩
  rw [h2, scan_breakdown, scan_final_matches]
  exact (countCat_total (resolvedMatches text)).symm

end MediaShield
